import Mathlib

/-!
Verification of the SRBuild/SBuildr build-system core against its design
specification.  The development shallowly embeds the Python sources:

* `srbuild/project/profile.py` : `_file_suffix`, `Profile`, `Profile.target`
* `sbuildr/project/project.py` : `Project.profile`, `Project._target.get_libraries`

Parts of the repository that the claims depend on but whose source files are
not present (graph.py, node.py, file_manager.py, tools/flags.py, the
compiler/linker signature functions, the logger) are modelled from the
specification; each such definition carries a doc comment starting with
`Modelled from the spec:`.

Paths are `String`s manipulated through their character lists, mirroring
Python's `os.path` (posixpath) functions.
-/

/-- The posix path separator used throughout `os.path`. -/
def pathSep : Char := '/'

/-- Character-list core of `os.path.basename`: everything after the last
separator (posixpath: `p[p.rfind(sep)+1:]`). -/
def basenameAux (l : List Char) : List Char :=
  (l.reverse.takeWhile (fun c => c ≠ pathSep)).reverse

/-- Character-list core of `os.path.dirname`: `head = p[:p.rfind(sep)+1]`,
then trailing separators are stripped unless `head` is empty or consists only
of separators. -/
def dirnameAux (l : List Char) : List Char :=
  let head := (l.reverse.dropWhile (fun c => c ≠ pathSep)).reverse
  if head.any (fun c => c ≠ pathSep) then
    (head.reverse.dropWhile (fun c => c = pathSep)).reverse
  else head

/-- Character-list core of `os.path.join` restricted to two components, as
used by `Profile.target` (posixpath: absolute second component replaces the
first; otherwise a separator is inserted unless one is already present). -/
def joinAux (a b : List Char) : List Char :=
  if b.head? = some pathSep then b
  else if a = [] ∨ a.getLast? = some pathSep then a ++ b
  else a ++ pathSep :: b

/-- Character-list core of `os.path.splitext`: splits at the last dot of the
final path component, except when every character before that dot (within the
component) is itself a dot (so `.bashrc` has no extension). -/
def splitextAux (p : List Char) : List Char × List Char :=
  let name := basenameAux p
  let extRev := name.reverse.takeWhile (fun c => c ≠ '.')
  if extRev.length = name.length then (p, [])
  else
    let stem := name.take (name.length - extRev.length - 1)
    if stem.any (fun c => c ≠ '.') then
      (p.take (p.length - extRev.length - 1), '.' :: extRev.reverse)
    else (p, [])

/-- `os.path.basename` on `String` paths. -/
def osBasename (p : String) : String := String.mk (basenameAux p.data)

/-- `os.path.dirname` on `String` paths. -/
def osDirname (p : String) : String := String.mk (dirnameAux p.data)

/-- `os.path.join` (two arguments) on `String` paths. -/
def osJoin (a b : String) : String := String.mk (joinAux a.data b.data)

/-- `os.path.splitext` on `String` paths. -/
def osSplitext (p : String) : String × String :=
  let s := splitextAux p.data
  (String.mk s.1, String.mk s.2)

/-- `os.path.isabs` on posix: the path starts with the separator. -/
def osIsabs (p : String) : Bool := p.data.head? = some pathSep

example : osBasename "/a/b/c.cpp" = "c.cpp" := by decide
example : osDirname "/a/b/c.cpp" = "/a/b" := by decide
example : osDirname "a//b" = "a" := by decide
example : osDirname "/b" = "/" := by decide
example : osJoin "/bld" "x.o" = "/bld/x.o" := by decide
example : osJoin "/bld" "/abs" = "/abs" := by decide
example : osSplitext "a.b.c" = ("a.b", ".c") := by decide
example : osSplitext ".bashrc" = (".bashrc", "") := by decide
example : osSplitext "/d/x.o" = ("/d/x", ".o") := by decide
example : osSplitext "name" = ("name", "") := by decide

/-- Boolean lexicographic comparison of character lists, used to keep the
sorted include-dir and flag sets computable down to the kernel. -/
def lexLeB : List Char → List Char → Bool
  | [], _ => true
  | _ :: _, [] => false
  | a :: as, b :: bs => if a = b then lexLeB as bs else decide (a.toNat < b.toNat)

theorem charToNat_inj {a b : Char} (h : a.toNat = b.toNat) : a = b :=
  Char.ext (UInt32.ext h)

theorem lexLeB_total : ∀ as bs, lexLeB as bs = true ∨ lexLeB bs as = true := by
  intro as
  induction as with
  | nil => intro bs; left; rfl
  | cons a as ih =>
    intro bs
    cases bs with
    | nil => right; rfl
    | cons b bs =>
      by_cases hab : a = b
      · subst hab
        rcases ih bs with h | h
        · left; simpa [lexLeB] using h
        · right; simpa [lexLeB] using h
      · rcases Nat.lt_trichotomy a.toNat b.toNat with h | h | h
        · left; simp [lexLeB, hab, h]
        · exact absurd (charToNat_inj h) hab
        · right
          have hba : b ≠ a := fun e => hab e.symm
          simp [lexLeB, hba, h]

theorem lexLeB_trans : ∀ as bs cs, lexLeB as bs = true → lexLeB bs cs = true →
    lexLeB as cs = true := by
  intro as
  induction as with
  | nil => intro bs cs _ _; rfl
  | cons a as ih =>
    intro bs cs h₁ h₂
    cases bs with
    | nil => simp [lexLeB] at h₁
    | cons b bs =>
      cases cs with
      | nil => simp [lexLeB] at h₂
      | cons c cs =>
        by_cases hab : a = b <;> by_cases hbc : b = c
        · subst hab; subst hbc
          simp only [lexLeB, if_pos rfl] at h₁ h₂ ⊢
          exact ih bs cs h₁ h₂
        · subst hab
          simp only [lexLeB, if_neg hbc] at h₂
          have hac : ¬ a = c := fun e => hbc e
          simp only [lexLeB, if_neg hac]
          exact h₂
        · subst hbc
          simp only [lexLeB, if_neg hab] at h₁
          simp only [lexLeB, if_neg hab]
          exact h₁
        · simp only [lexLeB, if_neg hab] at h₁
          simp only [lexLeB, if_neg hbc] at h₂
          have hlt := Nat.lt_trans (of_decide_eq_true h₁) (of_decide_eq_true h₂)
          have hac : ¬ a = c := fun e => Nat.lt_irrefl _ (e ▸ hlt)
          simp [lexLeB, hac, hlt]

theorem lexLeB_antisymm : ∀ as bs, lexLeB as bs = true → lexLeB bs as = true →
    as = bs := by
  intro as
  induction as with
  | nil =>
    intro bs _ h
    cases bs with
    | nil => rfl
    | cons b bs => simp [lexLeB] at h
  | cons a as ih =>
    intro bs h₁ h₂
    cases bs with
    | nil => simp [lexLeB] at h₁
    | cons b bs =>
      by_cases hab : a = b
      · subst hab
        simp only [lexLeB, if_pos rfl] at h₁ h₂
        rw [ih bs h₁ h₂]
      · have hba : ¬ b = a := fun e => hab e.symm
        simp only [lexLeB, if_neg hab] at h₁
        simp only [lexLeB, if_neg hba] at h₂
        exact absurd (Nat.lt_trans (of_decide_eq_true h₁) (of_decide_eq_true h₂))
          (Nat.lt_irrefl _)

/-- The path/flag ordering on strings induced by `lexLeB`. -/
def strLe (a b : String) : Prop := lexLeB a.data b.data = true

instance : DecidableRel strLe := fun _ _ => instDecidableEqBool _ _

instance : IsTotal String strLe := ⟨fun a b => lexLeB_total a.data b.data⟩

instance : IsTrans String strLe := ⟨fun a b c => lexLeB_trans a.data b.data c.data⟩

instance : IsAntisymm String strLe :=
  ⟨fun a b h₁ h₂ => by
    cases a; cases b
    exact congrArg String.mk (lexLeB_antisymm _ _ h₁ h₂)⟩

/-- Sorted deduplication used wherever the spec stores an order-independent
set of strings (include directories, canonical flag representations): first
`dedup`, then an insertion sort under the lexicographic string order. -/
def sortDedup (l : List String) : List String :=
  List.insertionSort strLe l.dedup

theorem sortDedup_perm (l : List String) : (sortDedup l).Perm l.dedup :=
  List.perm_insertionSort _ _

theorem sortDedup_sorted (l : List String) :
    List.Sorted strLe (sortDedup l) :=
  List.sorted_insertionSort _ _

theorem sortDedup_nodup (l : List String) : (sortDedup l).Nodup :=
  (sortDedup_perm l).nodup_iff.mpr l.nodup_dedup

theorem mem_sortDedup {x : String} {l : List String} :
    x ∈ sortDedup l ↔ x ∈ l := by
  rw [(sortDedup_perm l).mem_iff, List.mem_dedup]

/-- Order-independence: permuted inputs canonicalize identically. -/
theorem sortDedup_eq_of_perm {l₁ l₂ : List String} (h : l₁.Perm l₂) :
    sortDedup l₁ = sortDedup l₂ :=
  List.eq_of_perm_of_sorted
    ((sortDedup_perm l₁).trans ((h.dedup).trans (sortDedup_perm l₂).symm))
    (sortDedup_sorted l₁) (sortDedup_sorted l₂)

/-- Modelled from the spec: `srbuild/tools/flags.py` (`BuildFlags`) is not in
the sources.  A flag set is a list of (option, value) pairs; lookups take the
first matching entry. -/
abbrev BuildFlags : Type := List (String × String)

/-- Modelled from the spec: `BuildFlags.__add__` "merges per-target flags
over the profile's base flags (per-target options always override profile
defaults on conflict)".  Entries of the right (per-target) operand win;
conflicting base entries are dropped. -/
def mergeFlags (base tgt : BuildFlags) : BuildFlags :=
  tgt ++ base.filter (fun p => ! tgt.any (fun q => q.1 = p.1))

/-- First-match lookup of an option in a flag set. -/
def lookupFlag (f : BuildFlags) (k : String) : Option String :=
  (f.find? (fun p => p.1 = k)).map (fun p => p.2)

/-- The option names present in a flag set. -/
def flagKeys (f : BuildFlags) : List String := f.map (fun p => p.1)

/-- Modelled from the spec: "a canonicalized (order-independent) flag
representation" — each option/value pair is rendered and the whole set is
sorted and deduplicated. -/
def canonFlags (f : BuildFlags) : List String :=
  sortDedup (f.map (fun p => p.1 ++ "=" ++ p.2))

theorem canonFlags_eq_of_perm {f₁ f₂ : BuildFlags} (h : List.Perm f₁ f₂) :
    canonFlags f₁ = canonFlags f₂ :=
  sortDedup_eq_of_perm (h.map _)

/-- Modelled from the spec: the inputs of a Compiled signature — "the
resolved source path, the sorted/deduplicated ... include-dir set, a
canonicalized (order-independent) flag representation, and the compiler's
tool identity".  The token is the canonical tuple itself (the spec leaves the
hashing algorithm open and only requires determinism and collision
resistance, which the tuple satisfies exactly). -/
structure CompiledSig where
  sourcePath : String
  includeDirs : List String
  flagRepr : List String
  tool : String
deriving DecidableEq, Repr

/-- Modelled from the spec: the inputs of a Linked signature — "the ordered
list of object paths (link order matters and must not be reduced to a set),
the library name/path list, library search dirs, flags, and linker tool
identity". -/
structure LinkedSig where
  objectPaths : List String
  libs : List String
  libDirs : List String
  flagRepr : List String
  tool : String
deriving DecidableEq, Repr

/-- Modelled from the spec: `compiler.signature(source_path, include_dirs,
flags)` from the missing tools module.  Include dirs are canonicalized to a
sorted deduplicated set and flags to an order-independent representation. -/
def compilerSignature (tool : String) (sourcePath : String)
    (includeDirs : List String) (flags : BuildFlags) : CompiledSig :=
  ⟨sourcePath, sortDedup includeDirs, canonFlags flags, tool⟩

/-- Modelled from the spec: `linker.signature(input_paths, libs, lib_dirs,
flags)` from the missing tools module.  Object paths are kept in declared
order. -/
def linkerSignature (tool : String) (objectPaths : List String)
    (libs : List String) (libDirs : List String) (flags : BuildFlags) : LinkedSig :=
  ⟨objectPaths, libs, libDirs, canonFlags flags, tool⟩

/-- Renders a string into separator-free text for embedding a signature in a
file name ("filesystem-safely encoded"): path separators become underscores
and a marker is appended. -/
def sigTextStr (s : String) : List Char :=
  (s.data.map (fun c => if c = pathSep then '_' else c)) ++ ['+']

/-- Renders a list of strings separator-free. -/
def sigTextList (l : List String) : List Char :=
  (l.map sigTextStr).flatten ++ ['+']

/-- The textual token of a Compiled signature, as it appears inside the
artifact file name. -/
def sigTextCompiled (s : CompiledSig) : String :=
  String.mk (sigTextStr s.sourcePath ++ sigTextList s.includeDirs ++
    sigTextList s.flagRepr ++ sigTextStr s.tool)

/-- The textual token of a Linked signature. -/
def sigTextLinked (s : LinkedSig) : String :=
  String.mk (sigTextList s.objectPaths ++ sigTextList s.libs ++
    sigTextList s.libDirs ++ sigTextList s.flagRepr ++ sigTextStr s.tool)

theorem sigTextStr_no_sep (s : String) : ∀ c ∈ sigTextStr s, c ≠ pathSep := by
  intro c hc
  rcases List.mem_append.mp hc with h | h
  · rcases List.mem_map.mp h with ⟨a, _, rfl⟩
    by_cases ha : a = pathSep
    · simp [ha]; decide
    · simp [ha, ha]
  · simp_all; decide

theorem sigTextList_no_sep (l : List String) : ∀ c ∈ sigTextList l, c ≠ pathSep := by
  intro c hc
  rcases List.mem_append.mp hc with h | h
  · rcases List.mem_flatten.mp h with ⟨as, has, hca⟩
    rcases List.mem_map.mp has with ⟨s, _, rfl⟩
    exact sigTextStr_no_sep s c hca
  · simp_all; decide

theorem sigTextCompiled_no_sep (s : CompiledSig) :
    ∀ c ∈ (sigTextCompiled s).data, c ≠ pathSep := by
  intro c hc
  simp only [sigTextCompiled] at hc
  rcases List.mem_append.mp hc with h | h
  · rcases List.mem_append.mp h with h' | h'
    · rcases List.mem_append.mp h' with h'' | h''
      · exact sigTextStr_no_sep _ c h''
      · exact sigTextList_no_sep _ c h''
    · exact sigTextList_no_sep _ c h'
  · exact sigTextStr_no_sep _ c h

theorem sigTextLinked_no_sep (s : LinkedSig) :
    ∀ c ∈ (sigTextLinked s).data, c ≠ pathSep := by
  intro c hc
  simp only [sigTextLinked] at hc
  rcases List.mem_append.mp hc with h | h
  · rcases List.mem_append.mp h with h' | h'
    · rcases List.mem_append.mp h' with h'' | h''
      · rcases List.mem_append.mp h'' with h3 | h3
        · exact sigTextList_no_sep _ c h3
        · exact sigTextList_no_sep _ c h3
      · exact sigTextList_no_sep _ c h''
    · exact sigTextList_no_sep _ c h'
  · exact sigTextStr_no_sep _ c h

/-- Modelled from the spec: the node hierarchy of the missing
`srbuild/graph/node.py` — Source/Header leaves carrying derived include
dirs, Compiled nodes (path, source, compiler identity, explicit include
dirs, flags) and Linked nodes (path, inputs, linker identity, libs, lib
dirs, flags, target name). -/
inductive Node where
  | source (path : String) (include_dirs : List String) : Node
  | compiled (path : String) (src : Node) (compiler : String)
      (include_dirs : List String) (flags : BuildFlags) : Node
  | linked (path : String) (inputs : List Node) (linker : String)
      (libs : List String) (lib_dirs : List String) (flags : BuildFlags)
      (name : String) : Node

/-- The canonical path keying a node. -/
def Node.path : Node → String
  | .source p _ => p
  | .compiled p _ _ _ _ => p
  | .linked p _ _ _ _ _ _ => p

/-- The flags carried by a derived (Compiled/Linked) node. -/
def Node.flagsOf : Node → Option BuildFlags
  | .source _ _ => none
  | .compiled _ _ _ _ f => some f
  | .linked _ _ _ _ _ f _ => some f

/-- The inputs of a node (a Compiled node depends on its source; a Linked
node on its object and library nodes). -/
def Node.inputs : Node → List Node
  | .source _ _ => []
  | .compiled _ s _ _ _ => [s]
  | .linked _ ins _ _ _ _ _ => ins

/-- Modelled from the spec: the missing `srbuild/graph/graph.py` — an
ownership container of nodes keyed by canonical path. -/
structure Graph where
  nodes : List Node

/-- Modelled from the spec: `find_node_with_path(path)` returns the node
stored under a canonical path, or none. -/
def Graph.find_node_with_path (g : Graph) (p : String) : Option Node :=
  g.nodes.find? (fun n => n.path = p)

/-- Modelled from the spec: `add(node)` — "if a node with the same canonical
path already exists, returns the existing instance unchanged
(first-write-wins); otherwise inserts and returns the new node". -/
def Graph.add (g : Graph) (n : Node) : Graph × Node :=
  match g.find_node_with_path n.path with
  | some existing => (g, existing)
  | none => (⟨g.nodes ++ [n]⟩, n)

/-- `_file_suffix` from `srbuild/project/profile.py`: inserts `suffix` into
the basename of `path` just before the extension; a `None` or empty `ext`
argument falls back to the extension split off the basename. -/
def _file_suffix (path : String) (suffix : String) (ext : Option String) : String :=
  let split := splitextAux (basenameAux path.data)
  let e : List Char :=
    match ext with
    | some x => if x.data = [] then split.2 else x.data
    | none => split.2
  String.mk (split.1 ++ '.' :: suffix.data ++ e)

/-- A library argument of `Profile.target`: either a node of this graph, or
a path/name string (`libs: List[Union[Node, str]]`). -/
inductive LibEntry where
  | node (n : Node) : LibEntry
  | str (s : String) : LibEntry

/-- `Profile` from `srbuild/project/profile.py`: base flags, a build
directory and the profile's own graph of compiled/linked targets. -/
structure Profile where
  flags : BuildFlags
  build_dir : String
  graph : Graph

/-- `Profile.target` from `srbuild/project/profile.py`, line for line:
merges per-target flags over the profile flags, creates one Compiled node
per source (signed over the source path, the user include dirs and the
merged flags), splits the libraries into nodes and strings, then creates
and inserts the Linked node. -/
def Profile.target (p : Profile) (basename : String) (source_nodes : List Node)
    (flags : BuildFlags) (libs : List LibEntry) (compiler : String)
    (include_dirs : List String) (linker : String) (lib_dirs : List String) :
    Profile × Node :=
  let flags := mergeFlags p.flags flags
  let step := fun (acc : Graph × List Node) (source_node : Node) =>
    let obj_sig := compilerSignature compiler source_node.path include_dirs flags
    let obj_path := osJoin p.build_dir
      (_file_suffix source_node.path (sigTextCompiled obj_sig) (some ".o"))
    let obj_node := Node.compiled obj_path source_node compiler include_dirs flags
    let r := acc.1.add obj_node
    (r.1, acc.2 ++ [r.2])
  let folded := source_nodes.foldl step (p.graph, [])
  let object_nodes := folded.2
  let lib_nodes := libs.filterMap (fun l =>
    match l with | .node n => some n | .str _ => none)
  let lib_strs := libs.map (fun l =>
    match l with | .node n => n.path | .str s => s)
  let input_paths := object_nodes.map Node.path
  let linked_sig := linkerSignature linker input_paths lib_strs lib_dirs flags
  let linked_path := osJoin p.build_dir
    (_file_suffix basename (sigTextLinked linked_sig) none)
  let linked_node := Node.linked linked_path (object_nodes ++ lib_nodes) linker
    lib_strs lib_dirs flags basename
  let r := folded.1.add linked_node
  ({ p with graph := r.1 }, r.2)

theorem find?_path_congr :
    ∀ {l₁ l₂ : List Node}, l₁.map Node.path = l₂.map Node.path → ∀ (p : String),
      Option.map Node.path (l₁.find? (fun n => n.path = p))
        = Option.map Node.path (l₂.find? (fun n => n.path = p)) := by
  intro l₁
  induction l₁ with
  | nil =>
    intro l₂ h p
    cases l₂ with
    | nil => rfl
    | cons b bs => simp at h
  | cons a as ih =>
    intro l₂ h p
    cases l₂ with
    | nil => simp at h
    | cons b bs =>
      simp only [List.map_cons, List.cons.injEq] at h
      by_cases hap : a.path = p
      · have hbp : b.path = p := h.1 ▸ hap
        rw [List.find?_cons_of_pos _ (by simpa using hap),
          List.find?_cons_of_pos _ (by simpa using hbp)]
        simp [h.1]
      · have hbp : ¬ b.path = p := h.1 ▸ hap
        rw [List.find?_cons_of_neg _ (by simpa using hap),
          List.find?_cons_of_neg _ (by simpa using hbp)]
        exact ih h.2 p

theorem Graph.add_path_congr {g₁ g₂ : Graph} {n₁ n₂ : Node}
    (hg : g₁.nodes.map Node.path = g₂.nodes.map Node.path) (hn : n₁.path = n₂.path) :
    (g₁.add n₁).1.nodes.map Node.path = (g₂.add n₂).1.nodes.map Node.path
    ∧ (g₁.add n₁).2.path = (g₂.add n₂).2.path := by
  have hfind := find?_path_congr hg n₁.path
  unfold Graph.add Graph.find_node_with_path
  rw [hn] at hfind ⊢
  cases h₁ : g₁.nodes.find? (fun n => n.path = n₂.path) with
  | none =>
    cases h₂ : g₂.nodes.find? (fun n => n.path = n₂.path) with
    | none =>
      refine ⟨?_, hn⟩
      show List.map Node.path (g₁.nodes ++ [n₁]) = List.map Node.path (g₂.nodes ++ [n₂])
      simp [hg, hn]
    | some e₂ => rw [h₁, h₂] at hfind; simp at hfind
  | some e₁ =>
    cases h₂ : g₂.nodes.find? (fun n => n.path = n₂.path) with
    | none => rw [h₁, h₂] at hfind; simp at hfind
    | some e₂ =>
      rw [h₁, h₂] at hfind
      simp at hfind
      exact ⟨hg, hfind⟩

theorem linked_path_congr (bd bn link : String) (lds ls : List String)
    (fl : BuildFlags) (objs₁ objs₂ lib_nodes : List Node)
    (ho : objs₁.map Node.path = objs₂.map Node.path) :
    (Node.linked
      (osJoin bd (_file_suffix bn
        (sigTextLinked (linkerSignature link (objs₁.map Node.path) ls lds fl)) none))
      (objs₁ ++ lib_nodes) link ls lds fl bn).path
    = (Node.linked
      (osJoin bd (_file_suffix bn
        (sigTextLinked (linkerSignature link (objs₂.map Node.path) ls lds fl)) none))
      (objs₂ ++ lib_nodes) link ls lds fl bn).path := by
  simp only [Node.path]
  rw [ho]

/-- C1 (counterexample): two `Profile.target` configurations that differ only
in the include dirs discovered by scanning (the `include_dirs` stored on the
source node: `/i1` versus `/i2`) produce identical artifact paths — every
node of the resulting profile graphs, Compiled and Linked alike, gets the
same output path, because `Profile.target` passes only the explicit include
dirs to `compiler.signature`.  This refutes the claim that differing
discovered include-dir closures yield different output paths. -/
theorem C1_discovered_dirs_same_path_counterexample :
    (["/i1"] : List String) ≠ ["/i2"]
    ∧ ((Profile.mk [] "/bld" ⟨[]⟩).target "t" [Node.source "/s/a.cpp" ["/i1"]] [] []
        "clang" ["/inc"] "clang" []).1.graph.nodes.map Node.path
      = ((Profile.mk [] "/bld" ⟨[]⟩).target "t" [Node.source "/s/a.cpp" ["/i2"]] [] []
        "clang" ["/inc"] "clang" []).1.graph.nodes.map Node.path := by
  constructor
  · decide
  · decide

/-- C1 (amended): for every Compiled node created by `Profile.target`, the
signature token is computed from the resolved source path, the sorted
deduplicated *explicit* include dirs, an order-independent flag
representation and the compiler identity; the include dirs discovered by
scanning are not part of the signature, so two configurations that agree on
the source path (and all explicit inputs) but have different discovered
include-dir closures yield the same output paths. -/
theorem C1_signature_from_explicit_inputs_only
    (p : Profile) (bn : String) (s₁ s₂ : Node) (fl : BuildFlags)
    (libs : List LibEntry) (comp : String) (incs : List String)
    (link : String) (lds : List String) (hp : s₁.path = s₂.path) :
    (((p.target bn [s₁] fl libs comp incs link lds).1.graph.nodes.map Node.path
      = (p.target bn [s₂] fl libs comp incs link lds).1.graph.nodes.map Node.path)
    ∧ (p.target bn [s₁] fl libs comp incs link lds).2.path
      = (p.target bn [s₂] fl libs comp incs link lds).2.path)
    ∧ compilerSignature comp s₁.path incs (mergeFlags p.flags fl)
      = ⟨s₁.path, sortDedup incs, canonFlags (mergeFlags p.flags fl), comp⟩ := by
  refine ⟨?_, rfl⟩
  simp only [Profile.target, List.foldl]
  rw [hp]
  have h₁ := @Graph.add_path_congr p.graph p.graph
    (Node.compiled
      (osJoin p.build_dir
        (_file_suffix s₂.path
          (sigTextCompiled (compilerSignature comp s₂.path incs (mergeFlags p.flags fl)))
          (some ".o"))) s₁ comp incs (mergeFlags p.flags fl))
    (Node.compiled
      (osJoin p.build_dir
        (_file_suffix s₂.path
          (sigTextCompiled (compilerSignature comp s₂.path incs (mergeFlags p.flags fl)))
          (some ".o"))) s₂ comp incs (mergeFlags p.flags fl)) rfl rfl
  exact Graph.add_path_congr h₁.1
    (linked_path_congr p.build_dir bn link lds _ _ _ _ _
      (by simp only [List.nil_append, List.map_cons, List.map_nil, h₁.2]))

/-- Witness for C1 (amended) at a concrete configuration. -/
theorem C1_signature_from_explicit_inputs_only_witness :
    ((((Profile.mk [] "/bld" ⟨[]⟩).target "t" [Node.source "/s/a.cpp" ["/i1"]] [] []
        "clang" ["/inc"] "clang" []).1.graph.nodes.map Node.path
      = ((Profile.mk [] "/bld" ⟨[]⟩).target "t" [Node.source "/s/a.cpp" ["/i2"]] [] []
        "clang" ["/inc"] "clang" []).1.graph.nodes.map Node.path)
    ∧ ((Profile.mk [] "/bld" ⟨[]⟩).target "t" [Node.source "/s/a.cpp" ["/i1"]] [] []
        "clang" ["/inc"] "clang" []).2.path
      = ((Profile.mk [] "/bld" ⟨[]⟩).target "t" [Node.source "/s/a.cpp" ["/i2"]] [] []
        "clang" ["/inc"] "clang" []).2.path)
    ∧ compilerSignature "clang" (Node.source "/s/a.cpp" ["/i1"]).path ["/inc"]
        (mergeFlags [] [])
      = ⟨(Node.source "/s/a.cpp" ["/i1"]).path, sortDedup ["/inc"],
          canonFlags (mergeFlags [] []), "clang"⟩ :=
  C1_signature_from_explicit_inputs_only (Profile.mk [] "/bld" ⟨[]⟩) "t"
    (Node.source "/s/a.cpp" ["/i1"]) (Node.source "/s/a.cpp" ["/i2"]) [] []
    "clang" ["/inc"] "clang" [] rfl

/-- C2: the signature engine is a pure function of the configuration.
Compiled signatures are order-independent in the include-dir and flag sets
(permuted inputs give identical tokens), while Linked signatures keep the
object-path list ordered, so object lists that differ only in order give
different tokens. -/
theorem C2_signature_order_independence :
    (∀ (tool sp : String) (incs₁ incs₂ : List String) (fl₁ fl₂ : BuildFlags),
        incs₁.Perm incs₂ → fl₁.Perm fl₂ →
        compilerSignature tool sp incs₁ fl₁ = compilerSignature tool sp incs₂ fl₂)
    ∧ (∀ (tool : String) (ops₁ ops₂ libs lds : List String) (fl : BuildFlags),
        ops₁.Perm ops₂ → ops₁ ≠ ops₂ →
        linkerSignature tool ops₁ libs lds fl ≠ linkerSignature tool ops₂ libs lds fl) := by
  constructor
  · intro tool sp i₁ i₂ f₁ f₂ hi hf
    unfold compilerSignature
    rw [sortDedup_eq_of_perm hi, canonFlags_eq_of_perm hf]
  · intro tool o₁ o₂ libs lds fl _ hne heq
    exact hne (congrArg LinkedSig.objectPaths heq)

/-- Witness for C2 at concrete permuted configurations. -/
theorem C2_signature_order_independence_witness :
    compilerSignature "clang" "/s/a.cpp" ["/b", "/a"] [("-g", "1"), ("-O", "3")]
      = compilerSignature "clang" "/s/a.cpp" ["/a", "/b"] [("-O", "3"), ("-g", "1")]
    ∧ linkerSignature "clang" ["/o1.o", "/o2.o"] ["m"] ["/l"] []
      ≠ linkerSignature "clang" ["/o2.o", "/o1.o"] ["m"] ["/l"] [] :=
  ⟨C2_signature_order_independence.1 "clang" "/s/a.cpp" ["/b", "/a"] ["/a", "/b"]
      [("-g", "1"), ("-O", "3")] [("-O", "3"), ("-g", "1")]
      (List.Perm.swap "/a" "/b" []) (List.Perm.swap ("-O", "3") ("-g", "1") []),
   C2_signature_order_independence.2 "clang" ["/o1.o", "/o2.o"] ["/o2.o", "/o1.o"]
      ["m"] ["/l"] [] (List.Perm.swap "/o2.o" "/o1.o" []) (by decide)⟩

theorem Graph.mem_add {g : Graph} {m n : Node} (h : n ∈ (g.add m).1.nodes) :
    n ∈ g.nodes ∨ n = m := by
  unfold Graph.add at h
  cases hf : g.find_node_with_path m.path with
  | some e => rw [hf] at h; exact Or.inl h
  | none =>
    rw [hf] at h
    rcases List.mem_append.mp h with h' | h'
    · exact Or.inl h'
    · exact Or.inr (List.mem_singleton.mp h')

theorem foldl_graph_invariant (P : Node → Prop)
    (step : Graph × List Node → Node → Graph × List Node)
    (hstep : ∀ acc s, ∀ n ∈ (step acc s).1.nodes, n ∈ acc.1.nodes ∨ P n) :
    ∀ (sources : List Node) (acc : Graph × List Node),
      ∀ n ∈ (sources.foldl step acc).1.nodes, n ∈ acc.1.nodes ∨ P n := by
  intro sources
  induction sources with
  | nil => intro acc n hn; exact Or.inl hn
  | cons s ss ih =>
    intro acc n hn
    rcases ih (step acc s) n hn with h | h
    · exact hstep acc s n h
    · exact Or.inr h

theorem lookupFlag_mergeFlags_of_mem (base tgt : BuildFlags) (k : String)
    (hk : k ∈ flagKeys tgt) :
    lookupFlag (mergeFlags base tgt) k = lookupFlag tgt k := by
  unfold lookupFlag mergeFlags
  rw [List.find?_append]
  cases h : tgt.find? (fun p => p.1 = k) with
  | none =>
    exfalso
    rcases List.mem_map.mp hk with ⟨x, hx, hxk⟩
    exact absurd (by simpa using hxk) (by simpa using List.find?_eq_none.mp h x hx)
  | some y => simp [Option.or]

theorem find?_filter_of_imp {α : Type} (l : List α) (pr q : α → Bool)
    (himp : ∀ x, pr x = true → q x = true) :
    (l.filter q).find? pr = l.find? pr := by
  induction l with
  | nil => rfl
  | cons a as ih =>
    by_cases hq : q a = true
    · rw [List.filter_cons_of_pos hq]
      by_cases hp : pr a = true
      · rw [List.find?_cons_of_pos _ hp, List.find?_cons_of_pos _ hp]
      · rw [List.find?_cons_of_neg _ (by simpa using hp),
          List.find?_cons_of_neg _ (by simpa using hp)]
        exact ih
    · rw [List.filter_cons_of_neg (by simpa using hq)]
      have hp : ¬ pr a = true := fun hpa => hq (himp a hpa)
      rw [List.find?_cons_of_neg _ (by simpa using hp)]
      exact ih

theorem lookupFlag_mergeFlags_of_not_mem (base tgt : BuildFlags) (k : String)
    (hk : k ∉ flagKeys tgt) :
    lookupFlag (mergeFlags base tgt) k = lookupFlag base k := by
  unfold lookupFlag mergeFlags
  rw [List.find?_append]
  have htgt : tgt.find? (fun p => p.1 = k) = none := by
    apply List.find?_eq_none.mpr
    intro x hx
    simp only [decide_eq_true_eq]
    intro hxk
    exact hk (List.mem_map.mpr ⟨x, hx, hxk⟩)
  rw [htgt]
  have heq := find?_filter_of_imp base (fun p => decide (p.1 = k))
    (fun p => !tgt.any (fun q => decide (q.1 = p.1))) ?_
  · simp only [Option.or, heq]
  · intro x hx
    simp only [decide_eq_true_eq] at hx
    simp only [Bool.not_eq_true', List.any_eq_false, decide_eq_false_iff_not]
    intro y hy
    rw [hx]
    intro hyk
    apply absurd htgt
    rw [List.find?_eq_none]
    push_neg
    exact ⟨y, hy, by simpa using hyk⟩

/-- C5: `Profile.target` merges the per-target flags over the profile's base
flags (`flags = self.flags + flags`), uses the merged set for every Compiled
and Linked node it creates, and on every conflicting option the per-target
value overrides the profile default (a non-conflicting option keeps the
profile's value). -/
theorem C5_target_flags_merge
    (p : Profile) (bn : String) (sources : List Node) (fl : BuildFlags)
    (libs : List LibEntry) (comp : String) (incs : List String)
    (link : String) (lds : List String) :
    (∀ n ∈ (p.target bn sources fl libs comp incs link lds).1.graph.nodes,
        n ∈ p.graph.nodes ∨ n.flagsOf = some (mergeFlags p.flags fl))
    ∧ (∀ (base tgt : BuildFlags) (k : String),
        k ∈ flagKeys tgt → lookupFlag (mergeFlags base tgt) k = lookupFlag tgt k)
    ∧ (∀ (base tgt : BuildFlags) (k : String),
        k ∉ flagKeys tgt → lookupFlag (mergeFlags base tgt) k = lookupFlag base k) := by
  refine ⟨?_, lookupFlag_mergeFlags_of_mem, lookupFlag_mergeFlags_of_not_mem⟩
  intro n hn
  simp only [Profile.target] at hn
  rcases Graph.mem_add hn with h | h
  · refine foldl_graph_invariant
      (fun m => m.flagsOf = some (mergeFlags p.flags fl)) _ ?_ sources (p.graph, []) n h
    intro acc s m hm
    rcases Graph.mem_add hm with h' | h'
    · exact Or.inl h'
    · exact Or.inr (by rw [h']; rfl)
  · exact Or.inr (by rw [h]; rfl)

/-- Witness for C5: a debug-style profile with base `-O 3` and per-target
`-O 0`; the node created by `target` carries the merged flags and the
conflicting `-O` option resolves to the per-target value. -/
theorem C5_target_flags_merge_witness :
    (((Profile.mk [("-O", "3")] "/bld" ⟨[]⟩).target "t" [Node.source "/s/a.cpp" []]
        [("-O", "0")] [] "clang" [] "clang" []).1.graph.nodes.get
        ⟨0, by decide⟩ ∈ (Profile.mk [("-O", "3")] "/bld" (⟨[]⟩ : Graph)).graph.nodes
      ∨ (((Profile.mk [("-O", "3")] "/bld" ⟨[]⟩).target "t" [Node.source "/s/a.cpp" []]
        [("-O", "0")] [] "clang" [] "clang" []).1.graph.nodes.get
        ⟨0, by decide⟩).flagsOf = some (mergeFlags [("-O", "3")] [("-O", "0")]))
    ∧ lookupFlag (mergeFlags [("-O", "3")] [("-O", "0")]) "-O" = lookupFlag [("-O", "0")] "-O"
    ∧ lookupFlag (mergeFlags [("-O", "3")] [("-g", "1")]) "-O" = lookupFlag [("-O", "3")] "-O" :=
  ⟨(C5_target_flags_merge (Profile.mk [("-O", "3")] "/bld" ⟨[]⟩) "t"
      [Node.source "/s/a.cpp" []] [("-O", "0")] [] "clang" [] "clang" []).1 _
      (List.get_mem _ _ _),
   (C5_target_flags_merge (Profile.mk [("-O", "3")] "/bld" ⟨[]⟩) "t"
      [Node.source "/s/a.cpp" []] [("-O", "0")] [] "clang" [] "clang" []).2.1
      [("-O", "3")] [("-O", "0")] "-O" (by decide),
   (C5_target_flags_merge (Profile.mk [("-O", "3")] "/bld" ⟨[]⟩) "t"
      [Node.source "/s/a.cpp" []] [("-O", "0")] [] "clang" [] "clang" []).2.2
      [("-O", "3")] [("-g", "1")] "-O" (by decide)⟩


theorem basenameAux_no_sep (l : List Char) : ∀ c ∈ basenameAux l, c ≠ pathSep := by
  intro c hc
  unfold basenameAux at hc
  have := List.mem_takeWhile_imp (List.mem_reverse.mp hc)
  simpa using this

theorem basenameAux_subset (l : List Char) {c : Char} (hc : c ∈ basenameAux l) :
    c ∈ l := by
  unfold basenameAux at hc
  exact List.mem_reverse.mp (List.takeWhile_subset _ (List.mem_reverse.mp hc))

theorem splitextAux_mem_root (l : List Char) {c : Char}
    (hc : c ∈ (splitextAux l).1) : c ∈ l := by
  simp only [splitextAux] at hc
  split at hc
  · exact hc
  · split at hc
    · exact List.mem_of_mem_take hc
    · exact hc

theorem splitextAux_mem_ext (l : List Char) {c : Char}
    (hc : c ∈ (splitextAux l).2) : c = '.' ∨ c ∈ l := by
  simp only [splitextAux] at hc
  split at hc
  · simp at hc
  · split at hc
    · rcases List.mem_cons.mp hc with h | h
      · exact Or.inl h
      · exact Or.inr (basenameAux_subset l
          (List.mem_reverse.mp (List.takeWhile_subset _ (List.mem_reverse.mp h))))
    · simp at hc

theorem file_suffix_no_sep (path sfx : String) (ext : Option String)
    (hs : ∀ c ∈ sfx.data, c ≠ pathSep)
    (he : ∀ x, ext = some x → ∀ c ∈ x.data, c ≠ pathSep) :
    ∀ c ∈ (_file_suffix path sfx ext).data, c ≠ pathSep := by
  intro c hc
  unfold _file_suffix at hc
  simp only [String.data] at hc
  have hroot : ∀ d ∈ (splitextAux (basenameAux path.data)).1, d ≠ pathSep :=
    fun d hd => basenameAux_no_sep path.data d (splitextAux_mem_root _ hd)
  have hext : ∀ d ∈ (splitextAux (basenameAux path.data)).2, d ≠ pathSep := by
    intro d hd
    rcases splitextAux_mem_ext _ hd with h | h
    · subst h; decide
    · exact basenameAux_no_sep path.data d h
  rcases List.mem_append.mp hc with h | h
  · rcases List.mem_append.mp h with h' | h'
    · exact hroot c h'
    · rcases List.mem_cons.mp h' with h'' | h''
      · subst h''; decide
      · exact hs c h''
  · revert h
    cases ext with
    | none => exact fun h => hext c h
    | some x =>
      by_cases hx : x.data = []
      · simp only [hx, if_pos rfl]
        exact fun h => hext c h
      · simp only [if_neg hx]
        exact fun h => he x rfl c h

theorem dropWhile_ne_sep_append (xs ys : List Char) (hxs : ∀ c ∈ xs, c ≠ pathSep) :
    (xs ++ pathSep :: ys).dropWhile (fun c => c ≠ pathSep) = pathSep :: ys := by
  induction xs with
  | nil => simp [List.dropWhile_cons]
  | cons x xs ih =>
    have hx : x ≠ pathSep := hxs x (List.mem_cons_self x xs)
    rw [List.cons_append, List.dropWhile_cons, if_pos (decide_eq_true hx)]
    exact ih (fun c hc => hxs c (List.mem_cons_of_mem x hc))

theorem dirnameAux_joinAux (a b : List Char) (ha : a ≠ [])
    (hla : a.getLast? ≠ some pathSep) (hb : ∀ c ∈ b, c ≠ pathSep) :
    dirnameAux (joinAux a b) = a := by
  have hbh : ¬ b.head? = some pathSep := by
    cases b with
    | nil => simp
    | cons x xs =>
      simp only [List.head?_cons, Option.some.injEq]
      exact hb x (List.mem_cons_self x xs)
  have hag : ¬ (a = [] ∨ a.getLast? = some pathSep) := by
    push_neg
    exact ⟨ha, hla⟩
  unfold joinAux
  rw [if_neg hbh, if_neg hag]
  unfold dirnameAux
  have hrev : (a ++ pathSep :: b).reverse = b.reverse ++ pathSep :: a.reverse := by
    simp
  rw [hrev]
  rw [dropWhile_ne_sep_append b.reverse a.reverse
    (fun c hc => hb c (List.mem_reverse.mp hc))]
  have hhead : (pathSep :: a.reverse).reverse = a ++ [pathSep] := by simp
  rw [hhead]
  obtain ⟨x, xs, hx⟩ : ∃ x xs, a.reverse = x :: xs := by
    cases hrw : a.reverse with
    | nil => exact absurd (by simpa using congrArg List.reverse hrw) ha
    | cons x xs => exact ⟨x, xs, rfl⟩
  have hxlast : a.getLast? = some x := by
    rw [← List.head?_reverse, hx, List.head?_cons]
  have hxne : x ≠ pathSep := fun e => hla (hxlast.trans (by rw [e]))
  have hany : (a ++ [pathSep]).any (fun c => c ≠ pathSep) = true := by
    apply List.any_eq_true.mpr
    refine ⟨x, ?_, by simpa using hxne⟩
    apply List.mem_append.mpr
    exact Or.inl (List.mem_reverse.mp (by rw [hx]; exact List.mem_cons_self x xs))
  rw [if_pos hany]
  have hrev₂ : (a ++ [pathSep]).reverse = pathSep :: a.reverse := by simp
  rw [hrev₂, List.dropWhile_cons, if_pos (decide_eq_true rfl), hx,
    List.dropWhile_cons, if_neg (by simpa using hxne), ← hx]
  simp

theorem osDirname_osJoin (bd f : String) (h₁ : bd.data ≠ [])
    (h₂ : bd.data.getLast? ≠ some pathSep) (hf : ∀ c ∈ f.data, c ≠ pathSep) :
    osDirname (osJoin bd f) = bd := by
  unfold osDirname osJoin
  rw [show (String.mk (joinAux bd.data f.data)).data = joinAux bd.data f.data from rfl,
    dirnameAux_joinAux _ _ h₁ h₂ hf]

theorem target_nodes_dirname (p : Profile) (bn : String) (sources : List Node)
    (fl : BuildFlags) (libs : List LibEntry) (comp : String) (incs : List String)
    (link : String) (lds : List String)
    (h₁ : p.build_dir.data ≠ []) (h₂ : p.build_dir.data.getLast? ≠ some pathSep) :
    ∀ n ∈ (p.target bn sources fl libs comp incs link lds).1.graph.nodes,
      n ∈ p.graph.nodes ∨ osDirname n.path = p.build_dir := by
  have hobj : ∀ (s : Node),
      osDirname (osJoin p.build_dir
        (_file_suffix s.path
          (sigTextCompiled (compilerSignature comp s.path incs (mergeFlags p.flags fl)))
          (some ".o"))) = p.build_dir := by
    intro s
    refine osDirname_osJoin _ _ h₁ h₂
      (file_suffix_no_sep _ _ _ (sigTextCompiled_no_sep _) ?_)
    intro x hx
    injection hx with hx'
    subst hx'
    decide
  intro n hn
  simp only [Profile.target] at hn
  rcases Graph.mem_add hn with h | h
  · refine foldl_graph_invariant (fun m => osDirname m.path = p.build_dir) _ ?_
      sources (p.graph, []) n h
    intro acc s m hm
    rcases Graph.mem_add hm with h' | h'
    · exact Or.inl h'
    · exact Or.inr (by rw [h']; exact hobj s)
  · right
    rw [h]
    refine osDirname_osJoin _ _ h₁ h₂
      (file_suffix_no_sep _ _ none (sigTextLinked_no_sep _) ?_)
    intro x hx
    exact absurd hx (by simp)

/-- C10: every artifact path produced by `Profile.target` lies directly
inside that profile's `build_dir` — the output path of every Compiled and
Linked node is `build_dir` joined with a signature-suffixed basename (all
directory components of the source path or target basename are stripped by
`_file_suffix`), so its `os.path.dirname` is exactly `build_dir` and
artifacts of two profiles with distinct build directories never share a
directory. -/
theorem C10_artifacts_directly_in_build_dir
    (p : Profile) (bn : String) (sources : List Node) (fl : BuildFlags)
    (libs : List LibEntry) (comp : String) (incs : List String)
    (link : String) (lds : List String)
    (h₁ : p.build_dir.data ≠ []) (h₂ : p.build_dir.data.getLast? ≠ some pathSep) :
    (∀ n ∈ (p.target bn sources fl libs comp incs link lds).1.graph.nodes,
        n ∈ p.graph.nodes ∨ osDirname n.path = p.build_dir)
    ∧ (∀ (q : Profile) (bn' : String) (sources' : List Node) (fl' : BuildFlags)
        (libs' : List LibEntry) (comp' : String) (incs' : List String)
        (link' : String) (lds' : List String),
        q.build_dir.data ≠ [] → q.build_dir.data.getLast? ≠ some pathSep →
        q.build_dir ≠ p.build_dir →
        ∀ n ∈ (p.target bn sources fl libs comp incs link lds).1.graph.nodes,
          n ∉ p.graph.nodes →
        ∀ m ∈ (q.target bn' sources' fl' libs' comp' incs' link' lds').1.graph.nodes,
          m ∉ q.graph.nodes →
        osDirname n.path ≠ osDirname m.path) := by
  refine ⟨target_nodes_dirname p bn sources fl libs comp incs link lds h₁ h₂, ?_⟩
  intro q bn' sources' fl' libs' comp' incs' link' lds' hq₁ hq₂ hqp n hn hnp m hm hmq
  rcases target_nodes_dirname p bn sources fl libs comp incs link lds h₁ h₂ n hn with
    h | h
  · exact absurd h hnp
  rcases target_nodes_dirname q bn' sources' fl' libs' comp' incs' link' lds' hq₁ hq₂
    m hm with h' | h'
  · exact absurd h' hmq
  rw [h, h']
  exact fun e => hqp (e.symm)

/-- Witness for C10: a debug and a release profile over the same source
produce artifacts whose directories are exactly the two build directories. -/
theorem C10_artifacts_directly_in_build_dir_witness :
    (((Profile.mk [] "/bld/debug" ⟨[]⟩).target "t" [Node.source "/s/a.cpp" []] [] []
        "clang" [] "clang" []).1.graph.nodes.get ⟨0, by decide⟩
        ∈ (Profile.mk [] "/bld/debug" (⟨[]⟩ : Graph)).graph.nodes
      ∨ osDirname (((Profile.mk [] "/bld/debug" ⟨[]⟩).target "t"
          [Node.source "/s/a.cpp" []] [] [] "clang" [] "clang" []).1.graph.nodes.get
          ⟨0, by decide⟩).path = "/bld/debug")
    ∧ osDirname (((Profile.mk [] "/bld/debug" ⟨[]⟩).target "t"
        [Node.source "/s/a.cpp" []] [] [] "clang" [] "clang" []).1.graph.nodes.get
        ⟨0, by decide⟩).path
      ≠ osDirname (((Profile.mk [] "/bld/release" ⟨[]⟩).target "t"
        [Node.source "/s/a.cpp" []] [] [] "clang" [] "clang" []).1.graph.nodes.get
        ⟨0, by decide⟩).path :=
  ⟨(C10_artifacts_directly_in_build_dir (Profile.mk [] "/bld/debug" ⟨[]⟩) "t"
      [Node.source "/s/a.cpp" []] [] [] "clang" [] "clang" []
      (by decide) (by decide)).1 _ (List.get_mem _ _ _),
   (C10_artifacts_directly_in_build_dir (Profile.mk [] "/bld/debug" ⟨[]⟩) "t"
      [Node.source "/s/a.cpp" []] [] [] "clang" [] "clang" []
      (by decide) (by decide)).2 (Profile.mk [] "/bld/release" ⟨[]⟩) "t"
      [Node.source "/s/a.cpp" []] [] [] "clang" [] "clang" []
      (by decide) (by decide) (by decide) _ (List.get_mem _ _ _)
      (List.not_mem_nil _) _ (List.get_mem _ _ _) (List.not_mem_nil _)⟩

/-- Modelled from the spec: the sbuildr `Profile` variant constructed by
`Project.profile` (sbuildr/project/profile.py is not in the sources) — base
flags, a build directory and a per-profile artifact file suffix. -/
structure SbProfile where
  flags : BuildFlags
  build_dir : String
  suffix : String
deriving DecidableEq

/-- Modelled from the spec: ConfigurationError — "structural misuse, e.g. an
absolute path where a relative one is required"; `G_LOGGER.critical` (logger
not in the sources) is fatal, so the call reports the error and adds
nothing. -/
inductive ProjectError where
  | ConfigurationError (subdir : String)
deriving DecidableEq

/-- The slice of `Project` state that `Project.profile` reads and writes:
the profile dictionary and the file manager's build directory. -/
structure Project where
  profiles : List (String × SbProfile)
  files_build_dir : String
deriving DecidableEq

/-- First-match lookup in the profile dictionary. -/
def lookupProfile (ps : List (String × SbProfile)) (name : String) :
    Option SbProfile :=
  (ps.find? (fun q => q.1 = name)).map (fun q => q.2)

/-- `Project.profile` from `sbuildr/project/project.py` lines 201-218: returns
an existing profile unchanged; otherwise defaults `build_subdir` to the
profile name (Python `build_subdir or name`, so an empty string also
defaults), fails fatally when the subdirectory is an absolute path, and
otherwise creates the profile under `build_dir/build_subdir`. -/
def Project.profile (proj : Project) (name : String) (flags : BuildFlags)
    (build_subdir : Option String) (file_suffix : String) :
    Except ProjectError (Project × SbProfile) :=
  match lookupProfile proj.profiles name with
  | some prof => .ok (proj, prof)
  | none =>
    let bs := match build_subdir with
      | some s => if s = "" then name else s
      | none => name
    if osIsabs bs then .error (.ConfigurationError bs)
    else
      let bd := osJoin proj.files_build_dir bs
      let prof : SbProfile := ⟨flags, bd, file_suffix⟩
      .ok ({ proj with profiles := proj.profiles ++ [(name, prof)] }, prof)

/-- `is_lib_path` from `Project._target.get_libraries`
(sbuildr/project/project.py lines 83-86): a string looks like a path when it
has path components or an extension. -/
def is_lib_path (lib : String) : Bool :=
  lib.data.contains pathSep || decide ((osSplitext lib).2 ≠ "")

/-- A library argument of `Project._target`: a `ProjectTarget` or a string
(library name or path). -/
inductive LibRef where
  | target (name : String) : LibRef
  | str (s : String) : LibRef
deriving DecidableEq

/-- A processed library reference: targets pass through, path-like strings
become external artifact nodes (`files.external`), name-like strings pass
through unresolved. -/
inductive LibFixed where
  | target (name : String) : LibFixed
  | externalNode (path : String) : LibFixed
  | str (s : String) : LibFixed
deriving DecidableEq

/-- A diagnostic record emitted while processing (spec section 9 suggests
asserting on emitted diagnostics); `critical` aborts, `warning` does not. -/
inductive Diag where
  | warning (msg : String) : Diag
  | critical (msg : String) : Diag
deriving DecidableEq

/-- One iteration of the `get_libraries` loop
(sbuildr/project/project.py lines 88-100): targets are kept; for a string,
the file index is consulted; a path-like string is registered as an external
node — with only a warning when the lookup was ambiguous — and a name-like
string passes through, with a warning when it matched indexed files. -/
def fix_lib (find : String → List String) (lib : LibRef) :
    LibFixed × List Diag :=
  match lib with
  | .target t => (.target t, [])
  | .str s =>
    let candidates := find s
    if is_lib_path s then
      if candidates.length > 1 then (.externalNode s, [.warning s])
      else (.externalNode s, [])
    else
      if candidates.isEmpty then (.str s, [])
      else (.str s, [.warning s])

/-- `get_libraries` from `Project._target`
(sbuildr/project/project.py lines 81-102): processes every library
reference in order, collecting the fixed references and the emitted
diagnostics; it never fails. -/
def get_libraries (find : String → List String) :
    List LibRef → List LibFixed × List Diag
  | [] => ([], [])
  | lib :: rest =>
    let f := fix_lib find lib
    let r := get_libraries find rest
    (f.1 :: r.1, f.2 ++ r.2)

/-- Modelled from the spec: the error kinds of the missing
file_manager.py — "AmbiguousReference (name resolves to multiple indexed
files ...), UnresolvedReference (name resolves to none)". -/
inductive FMError where
  | AmbiguousReference (name : String)
  | UnresolvedReference (name : String)
deriving DecidableEq

/-- Modelled from the spec: the FileManager owns the project's file index
and one Graph of Source/Header nodes (file_manager.py is not in the
sources). -/
structure FileManager where
  files : List String
  graph : Graph

/-- Modelled from the spec: `find(name)` "returns all indexed paths whose
suffix matches `name`". -/
def FileManager.find (fm : FileManager) (name : String) : List String :=
  fm.files.filter (fun p => name.data.isSuffixOf p.data)

/-- Modelled from the spec: `source(path_or_name)` "resolves to exactly one
canonical path (failing with AmbiguousReference or UnresolvedReference
otherwise) and returns the cached Source/Header node for it, creating it on
first access; repeated calls with the same resolved path never create
duplicates". -/
def FileManager.source (fm : FileManager) (name : String) :
    Except FMError (FileManager × Node) :=
  match fm.find name with
  | [] => .error (.UnresolvedReference name)
  | [p] =>
    match fm.graph.find_node_with_path p with
    | some n => .ok (fm, n)
    | none =>
      let n := Node.source p []
      .ok ({ fm with graph := (fm.graph.add n).1 }, n)
  | _ :: _ :: _ => .error (.AmbiguousReference name)

theorem Graph.find_after_add (g : Graph) (n : Node)
    (h : g.find_node_with_path n.path = none) :
    (g.add n).1.find_node_with_path n.path = some n := by
  unfold Graph.find_node_with_path at h
  unfold Graph.add Graph.find_node_with_path
  rw [h]
  show (g.nodes ++ [n]).find? (fun q => q.path = n.path) = some n
  rw [List.find?_append, h]
  simp [List.find?]

/-- C9: `Project.profile` returns an existing profile unchanged — ignoring
the newly supplied flags, build subdirectory and file suffix — and, when the
profile does not exist and the requested build subdirectory is an absolute
path, fails with a fatal ConfigurationError, adding nothing. -/
theorem C9_profile_existing_or_configuration_error
    (proj : Project) (name : String) (flags : BuildFlags)
    (bs : Option String) (fs : String) :
    (∀ prof, lookupProfile proj.profiles name = some prof →
        proj.profile name flags bs fs = .ok (proj, prof))
    ∧ (lookupProfile proj.profiles name = none →
        ∀ s, bs = some s → osIsabs s = true →
        proj.profile name flags bs fs = .error (.ConfigurationError s)) := by
  constructor
  · intro prof h
    unfold Project.profile
    rw [h]
  · intro hnone s hbs habs
    have hs : ¬ s = "" := by
      intro e
      subst e
      simp [osIsabs] at habs
    unfold Project.profile
    rw [hnone, hbs]
    show (if osIsabs (if s = "" then name else s) then _ else _) = _
    rw [if_neg hs, if_pos habs]
    simp [hs]

/-- Witness for C9 on a concrete project with a release profile. -/
theorem C9_profile_existing_or_configuration_error_witness :
    (Project.mk [("release", ⟨[], "/bld/release", ""⟩)] "/bld").profile "release"
        [("-g", "1")] (some "elsewhere") "_x"
      = .ok (Project.mk [("release", ⟨[], "/bld/release", ""⟩)] "/bld",
          ⟨[], "/bld/release", ""⟩)
    ∧ (Project.mk [("release", ⟨[], "/bld/release", ""⟩)] "/bld").profile "debug"
        [] (some "/abs") ""
      = .error (.ConfigurationError "/abs") :=
  ⟨(C9_profile_existing_or_configuration_error
      (Project.mk [("release", ⟨[], "/bld/release", ""⟩)] "/bld") "release"
      [("-g", "1")] (some "elsewhere") "_x").1 ⟨[], "/bld/release", ""⟩ (by decide),
   (C9_profile_existing_or_configuration_error
      (Project.mk [("release", ⟨[], "/bld/release", ""⟩)] "/bld") "debug"
      [] (some "/abs") "").2 (by decide) "/abs" rfl (by decide)⟩

theorem fix_lib_no_critical (find : String → List String) (lib : LibRef) :
    ∀ d ∈ (fix_lib find lib).2, ∀ m, d ≠ Diag.critical m := by
  intro d hd m
  cases lib with
  | target t => simp [fix_lib] at hd
  | str s =>
    simp only [fix_lib] at hd
    split at hd
    · split at hd
      · rcases List.mem_singleton.mp hd with h
        rw [h]
        intro e
        cases e
      · simp at hd
    · split at hd
      · simp at hd
      · rcases List.mem_singleton.mp hd with h
        rw [h]
        intro e
        cases e

/-- C3 (counterexample): a library path reference matching two indexed
candidates is not reported as an error by `Project._target.get_libraries`:
resolution proceeds (the path is registered as an external node) and only a
warning is emitted. -/
theorem C3_ambiguous_lib_not_error_counterexample :
    (((fun _ => ["/x/libm.so", "/y/libm.so"]) : String → List String) "/z/libm.so").length = 2
    ∧ is_lib_path "/z/libm.so" = true
    ∧ get_libraries (fun _ => ["/x/libm.so", "/y/libm.so"]) [.str "/z/libm.so"]
      = ([.externalNode "/z/libm.so"], [.warning "/z/libm.so"]) := by
  refine ⟨by decide, by decide, by decide⟩

/-- C3 (amended): ambiguous references to project files through
`FileManager.source` are reported as AmbiguousReference errors, but
ambiguous library-path references in `Project._target.get_libraries` are
not errors: the given path is registered as an external node and only a
warning (never a fatal diagnostic) is emitted. -/
theorem C3_ambiguity_error_except_lib_paths :
    (∀ (fm : FileManager) (name p q : String) (rest : List String),
        fm.find name = p :: q :: rest →
        fm.source name = .error (.AmbiguousReference name))
    ∧ (∀ (find : String → List String) (libs : List LibRef),
        ∀ d ∈ (get_libraries find libs).2, ∀ m, d ≠ Diag.critical m)
    ∧ (∀ (find : String → List String) (s : String),
        is_lib_path s = true → 1 < (find s).length →
        get_libraries find [.str s] = ([.externalNode s], [.warning s])) := by
  refine ⟨?_, ?_, ?_⟩
  · intro fm name p q rest h
    unfold FileManager.source
    rw [h]
  · intro find libs
    induction libs with
    | nil => intro d hd; simp [get_libraries] at hd
    | cons lib rest ih =>
      intro d hd m
      unfold get_libraries at hd
      rcases List.mem_append.mp hd with h | h
      · exact fix_lib_no_critical find lib d h m
      · exact ih d h m
  · intro find s h₁ h₂
    simp only [get_libraries, fix_lib]
    rw [if_pos h₁, if_pos (by simpa using h₂)]
    simp

/-- Witness for C3 (amended): the ambiguous-source scenario (two files named
`utils.h` in different directories) errors, while the ambiguous library path
warns and resolves. -/
theorem C3_ambiguity_error_except_lib_paths_witness :
    (FileManager.mk ["/a/utils.h", "/b/utils.h"] ⟨[]⟩).source "utils.h"
      = .error (.AmbiguousReference "utils.h")
    ∧ get_libraries (fun _ => ["/x/libm.so", "/y/libm.so"]) [.str "/z/libm.so"]
      = ([.externalNode "/z/libm.so"], [.warning "/z/libm.so"]) :=
  ⟨C3_ambiguity_error_except_lib_paths.1
      (FileManager.mk ["/a/utils.h", "/b/utils.h"] ⟨[]⟩) "utils.h"
      "/a/utils.h" "/b/utils.h" [] (by decide),
   C3_ambiguity_error_except_lib_paths.2.2
      (fun _ => ["/x/libm.so", "/y/libm.so"]) "/z/libm.so" (by decide) (by decide)⟩

/-- C4: node creation is deduplicated by canonical path and idempotent — a
second `Graph.add` with an equal-path node returns the already-stored
instance and leaves the graph unchanged (first-write-wins), and a repeated
`FileManager.source` call on the same name returns the same cached node
with the file manager unchanged, so no duplicate node is ever created. -/
theorem C4_add_and_source_idempotent :
    (∀ (g : Graph) (n m : Node), m.path = n.path →
        (g.add n).1.add m = ((g.add n).1, (g.add n).2))
    ∧ (∀ (fm fm' : FileManager) (name : String) (nd : Node),
        fm.source name = .ok (fm', nd) →
        fm'.source name = .ok (fm', nd)) := by
  constructor
  · intro g n m hm
    cases hf : g.nodes.find? (fun q => q.path = n.path) with
    | some e =>
      have h₁ : g.add n = (g, e) := by
        unfold Graph.add Graph.find_node_with_path
        rw [hf]
      rw [h₁]
      show g.add m = (g, e)
      unfold Graph.add Graph.find_node_with_path
      rw [hm, hf]
    | none =>
      have h₁ : g.add n = (⟨g.nodes ++ [n]⟩, n) := by
        unfold Graph.add Graph.find_node_with_path
        rw [hf]
      rw [h₁]
      show Graph.add ⟨g.nodes ++ [n]⟩ m = (⟨g.nodes ++ [n]⟩, n)
      unfold Graph.add Graph.find_node_with_path
      rw [hm]
      show (match (g.nodes ++ [n]).find? (fun q => q.path = n.path) with
        | some existing => ((⟨g.nodes ++ [n]⟩ : Graph), existing)
        | none => ((⟨(⟨g.nodes ++ [n]⟩ : Graph).nodes ++ [m]⟩ : Graph), m))
        = ((⟨g.nodes ++ [n]⟩ : Graph), n)
      rw [List.find?_append, hf]
      simp [List.find?]
  · intro fm fm' name nd h
    cases hf : fm.find name with
    | nil =>
      unfold FileManager.source at h
      rw [hf] at h
      exact absurd h (by simp)
    | cons p rest =>
      cases rest with
      | cons q qs =>
        unfold FileManager.source at h
        rw [hf] at h
        exact absurd h (by simp)
      | nil =>
        unfold FileManager.source at h
        rw [hf] at h
        dsimp only at h
        cases hg : fm.graph.find_node_with_path p with
        | some n₀ =>
          rw [hg] at h
          injection h with h'
          injection h' with he₁ he₂
          subst he₁
          subst he₂
          unfold FileManager.source
          rw [hf]
          dsimp only
          rw [hg]
        | none =>
          rw [hg] at h
          injection h with h'
          injection h' with he₁ he₂
          subst he₁
          subst he₂
          unfold FileManager.source
          have hff : ({ fm with graph := (fm.graph.add (Node.source p [])).1 }
              : FileManager).find name = [p] := hf
          rw [hff]
          have hgadd : ((fm.graph.add (Node.source p [])).1.find_node_with_path p)
              = some (Node.source p []) :=
            Graph.find_after_add fm.graph (Node.source p []) hg
          dsimp only
          rw [hgadd]

/-- Witness for C4: re-adding a differently-configured node under an
already-stored path returns the stored instance, and a repeated
`source` lookup returns the same cached node. -/
theorem C4_add_and_source_idempotent_witness :
    ((Graph.mk []).add (Node.source "/a/ut.h" [])).1.add (Node.source "/a/ut.h" ["/x"])
      = (((Graph.mk []).add (Node.source "/a/ut.h" [])).1,
         ((Graph.mk []).add (Node.source "/a/ut.h" [])).2)
    ∧ (FileManager.mk ["/a/ut.h"] ⟨[Node.source "/a/ut.h" []]⟩).source "ut.h"
      = .ok (FileManager.mk ["/a/ut.h"] ⟨[Node.source "/a/ut.h" []]⟩,
          Node.source "/a/ut.h" []) :=
  ⟨C4_add_and_source_idempotent.1 (Graph.mk []) (Node.source "/a/ut.h" [])
      (Node.source "/a/ut.h" ["/x"]) rfl,
   C4_add_and_source_idempotent.2 (FileManager.mk ["/a/ut.h"] ⟨[]⟩)
      (FileManager.mk ["/a/ut.h"] ⟨[Node.source "/a/ut.h" []]⟩) "ut.h"
      (Node.source "/a/ut.h" []) rfl⟩

/-- C7: `FileManager.find` returns exactly the indexed paths whose suffix
matches the name, and `source` resolves to exactly one canonical path —
failing with UnresolvedReference on zero matches and AmbiguousReference on
several — returning the cached node for the unique match. -/
theorem C7_source_resolves_to_unique_path (fm : FileManager) (name : String) :
    (∀ p, p ∈ fm.find name ↔ p ∈ fm.files ∧ name.data.isSuffixOf p.data)
    ∧ (fm.find name = [] → fm.source name = .error (.UnresolvedReference name))
    ∧ (∀ p q rest, fm.find name = p :: q :: rest →
        fm.source name = .error (.AmbiguousReference name))
    ∧ (∀ p, fm.find name = [p] → ∃ fm' nd, fm.source name = .ok (fm', nd)
        ∧ nd.path = p ∧ fm'.graph.find_node_with_path p = some nd
        ∧ fm'.files = fm.files) := by
  refine ⟨?_, ?_, ?_, ?_⟩
  · intro p
    simp [FileManager.find, List.mem_filter, List.isSuffixOf]
  · intro h
    unfold FileManager.source
    rw [h]
  · intro p q rest h
    unfold FileManager.source
    rw [h]
  · intro p h
    cases hg : fm.graph.find_node_with_path p with
    | some n =>
      refine ⟨fm, n, ?_, ?_, ?_, rfl⟩
      · unfold FileManager.source
        rw [h]
        dsimp only
        rw [hg]
      · have := List.find?_some hg
        simpa using this
      · exact hg
    | none =>
      refine ⟨{ fm with graph := (fm.graph.add (Node.source p [])).1 },
        Node.source p [], ?_, rfl, ?_, rfl⟩
      · unfold FileManager.source
        rw [h]
        dsimp only
        rw [hg]
      · exact Graph.find_after_add fm.graph (Node.source p []) hg

/-- Witness for C7: one index holding `/a/utils.h` and `/b/utils.h` —
`find "utils.h"` matches both and `source "utils.h"` is ambiguous; the name
`a/utils.h` resolves uniquely; an unknown name is unresolved. -/
theorem C7_source_resolves_to_unique_path_witness :
    ("/a/utils.h" ∈ (FileManager.mk ["/a/utils.h", "/b/utils.h"] ⟨[]⟩).find "utils.h"
      ↔ ("/a/utils.h" ∈ ["/a/utils.h", "/b/utils.h"]
          ∧ ("utils.h").data.isSuffixOf ("/a/utils.h").data))
    ∧ (FileManager.mk ["/a/utils.h", "/b/utils.h"] ⟨[]⟩).source "utils.h"
      = .error (.AmbiguousReference "utils.h")
    ∧ (FileManager.mk ["/a/utils.h", "/b/utils.h"] ⟨[]⟩).source "nothere.h"
      = .error (.UnresolvedReference "nothere.h")
    ∧ ∃ fm' nd, (FileManager.mk ["/a/utils.h", "/b/utils.h"] ⟨[]⟩).source "a/utils.h"
        = .ok (fm', nd)
        ∧ nd.path = "/a/utils.h"
        ∧ fm'.graph.find_node_with_path "/a/utils.h" = some nd
        ∧ fm'.files = (FileManager.mk ["/a/utils.h", "/b/utils.h"] ⟨[]⟩).files :=
  ⟨(C7_source_resolves_to_unique_path
      (FileManager.mk ["/a/utils.h", "/b/utils.h"] ⟨[]⟩) "utils.h").1 "/a/utils.h",
   (C7_source_resolves_to_unique_path
      (FileManager.mk ["/a/utils.h", "/b/utils.h"] ⟨[]⟩) "utils.h").2.2.1
      "/a/utils.h" "/b/utils.h" [] (by decide),
   (C7_source_resolves_to_unique_path
      (FileManager.mk ["/a/utils.h", "/b/utils.h"] ⟨[]⟩) "nothere.h").2.1 (by decide),
   (C7_source_resolves_to_unique_path
      (FileManager.mk ["/a/utils.h", "/b/utils.h"] ⟨[]⟩) "a/utils.h").2.2.2
      "/a/utils.h" (by decide)⟩

/-- Modelled from the spec: the input of `scan_all` (file_manager.py is not
in the sources) — the indexed project files, the parsed quoted include
directives of each file, and the explicitly configured project
directories. -/
structure ScanEnv where
  files : List String
  includesOf : String → List String
  proj_dirs : List String

/-- Modelled from the spec (4.3): resolve one include name against "a
candidate directory set built from: the including file's own directory,
directories of any other indexed file sharing that basename, and the
explicitly configured project directories — recording whichever directory
actually resolves the include". -/
def resolveInclude (env : ScanEnv) (f : String) (n : String) :
    Option (String × String) :=
  let candidates := osDirname f ::
    (((env.files.filter (fun p => osBasename p = n)).map osDirname)
      ++ env.proj_dirs)
  (candidates.find? (fun d => osJoin d n ∈ env.files)).map
    (fun d => (d, osJoin d n))

/-- Modelled from the spec (4.3/7): a scanning error — CycleDetected carries
the file chain; OutOfFuel is the exhaustion marker of the bounded recursion
and is proved unreachable for the fuel `scan_all` supplies. -/
inductive ScanError where
  | CycleDetected (chain : List String)
  | OutOfFuel
deriving DecidableEq

/-- A pending scanning task: scan one file, or fold the includes of a file. -/
abbrev ScanTask := Sum (String × List String) (String × List String × List String)

/-- Modelled from the spec (4.3): the recursive scanner.  Scanning a file
(`Sum.inl`) raises CycleDetected when the file is already being visited in
the current traversal, skips unindexed files, and otherwise folds its own
directory with the directories collected from its includes into a sorted
deduplicated set.  Folding includes (`Sum.inr`) skips includes that resolve
to no indexed file (external headers, a non-fatal note) and otherwise
records the resolving directory and the include dirs of the included file,
scanned within the same traversal. -/
def scanGo (env : ScanEnv) : Nat → ScanTask → Except ScanError (List String)
  | 0, _ => .error .OutOfFuel
  | fuel+1, task =>
    match task with
    | .inl (f, visiting) =>
      if f ∈ visiting then .error (.CycleDetected (f :: visiting))
      else if f ∈ env.files then
        match scanGo env fuel (.inr (f, env.includesOf f, f :: visiting)) with
        | .error e => .error e
        | .ok ds => .ok (sortDedup (osDirname f :: ds))
      else .ok []
    | .inr (_, [], _) => .ok []
    | .inr (f, n :: rest, visiting) =>
      match resolveInclude env f n with
      | none => scanGo env fuel (.inr (f, rest, visiting))
      | some (d, g) =>
        match scanGo env fuel (.inl (g, visiting)) with
        | .error e => .error e
        | .ok sub =>
          match scanGo env fuel (.inr (f, rest, visiting)) with
          | .error e => .error e
          | .ok more => .ok (d :: (sub ++ more))

/-- Scan one file within a traversal. -/
def scanFile (env : ScanEnv) (fuel : Nat) (f : String) (visiting : List String) :
    Except ScanError (List String) :=
  scanGo env fuel (.inl (f, visiting))

/-- The number of files not yet being visited: the recursion measure of the
scanner. -/
def remainingFiles (env : ScanEnv) (visiting : List String) : Nat :=
  ((env.files.dedup).filter (fun p => ¬ p ∈ visiting)).length

/-- A bound on the number of include directives of any indexed file. -/
def maxIncludes (env : ScanEnv) : Nat :=
  (env.files.map (fun f => (env.includesOf f).length)).foldr max 0

/-- The fuel `scan_all` supplies: strictly more than the scanner can consume
(`scanGo_no_fuel_error`). -/
def scanFuel (env : ScanEnv) : Nat :=
  (maxIncludes env + 1) * env.files.length + 1

/-- Modelled from the spec (4.3): `scan_all` scans every indexed file with a
fresh traversal, pairing each file with its resulting `include_dirs`. -/
def scanAllGo (env : ScanEnv) : List String →
    Except ScanError (List (String × List String))
  | [] => .ok []
  | f :: rest =>
    match scanFile env (scanFuel env) f [] with
    | .error e => .error e
    | .ok ds =>
      match scanAllGo env rest with
      | .error e => .error e
      | .ok r => .ok ((f, ds) :: r)

/-- Modelled from the spec (4.3): scan every indexed file. -/
def scan_all (env : ScanEnv) :
    Except ScanError (List (String × List String)) :=
  scanAllGo env env.files

instance exceptDecEq {ε α : Type} [DecidableEq ε] [DecidableEq α] :
    DecidableEq (Except ε α) := fun a b =>
  match a, b with
  | .error e₁, .error e₂ =>
    if h : e₁ = e₂ then isTrue (by rw [h])
    else isFalse (fun he => h (by injection he))
  | .ok x, .ok y =>
    if h : x = y then isTrue (by rw [h])
    else isFalse (fun he => h (by injection he))
  | .error _, .ok _ => isFalse (fun he => Except.noConfusion he)
  | .ok _, .error _ => isFalse (fun he => Except.noConfusion he)

theorem filter_imp_length_le {α : Type} (l : List α) (p q : α → Bool)
    (h : ∀ x, p x = true → q x = true) :
    (l.filter p).length ≤ (l.filter q).length := by
  induction l with
  | nil => exact Nat.le_refl 0
  | cons a as ih =>
    by_cases hp : p a = true
    · rw [List.filter_cons_of_pos hp, List.filter_cons_of_pos (h a hp)]
      exact Nat.succ_le_succ ih
    · rw [List.filter_cons_of_neg (by simpa using hp)]
      by_cases hq : q a = true
      · rw [List.filter_cons_of_pos hq]
        exact Nat.le_succ_of_le ih
      · rw [List.filter_cons_of_neg (by simpa using hq)]
        exact ih

theorem length_filter_not_mem_cons_lt {α : Type} [DecidableEq α]
    (l : List α) (f : α) (vis : List α) (hf : f ∈ l) (hnv : f ∉ vis) :
    (l.filter (fun p => ¬ p ∈ f :: vis)).length
      < (l.filter (fun p => ¬ p ∈ vis)).length := by
  induction l with
  | nil => cases hf
  | cons a as ih =>
    by_cases haf : a = f
    · subst haf
      rw [List.filter_cons_of_neg (by simp), List.filter_cons_of_pos (by simpa using hnv)]
      refine Nat.lt_succ_of_le (filter_imp_length_le as _ _ ?_)
      intro x hx
      simp only [decide_eq_true_eq, List.mem_cons, not_or] at hx ⊢
      exact hx.2
    · have hfas : f ∈ as := by
        rcases List.mem_cons.mp hf with h | h
        · exact absurd h.symm haf
        · exact h
      by_cases hav : a ∈ vis
      · rw [List.filter_cons_of_neg (by simp [hav]),
          List.filter_cons_of_neg (by simpa using hav)]
        exact ih hfas
      · rw [List.filter_cons_of_pos (by simp [hav, haf]),
          List.filter_cons_of_pos (by simpa using hav)]
        exact Nat.succ_lt_succ (ih hfas)

theorem remainingFiles_cons_lt (env : ScanEnv) (f : String) (vis : List String)
    (hf : f ∈ env.files) (hnv : f ∉ vis) :
    remainingFiles env (f :: vis) < remainingFiles env vis :=
  length_filter_not_mem_cons_lt env.files.dedup f vis (List.mem_dedup.mpr hf) hnv

theorem le_foldr_max (l : List Nat) (x : Nat) (hx : x ∈ l) :
    x ≤ l.foldr max 0 := by
  induction l with
  | nil => cases hx
  | cons a as ih =>
    rcases List.mem_cons.mp hx with h | h
    · subst h; exact Nat.le_max_left _ _
    · exact Nat.le_trans (ih h) (Nat.le_max_right _ _)

theorem maxIncludes_bound (env : ScanEnv) (f : String) (hf : f ∈ env.files) :
    (env.includesOf f).length ≤ maxIncludes env :=
  le_foldr_max _ _ (List.mem_map.mpr ⟨f, hf, rfl⟩)

/-- The recursion measure of a scanning task. -/
def taskMeasure (env : ScanEnv) : ScanTask → Nat
  | .inl (_, visiting) => (maxIncludes env + 1) * remainingFiles env visiting
  | .inr (_, names, visiting) =>
      (maxIncludes env + 1) * remainingFiles env visiting + names.length

theorem scanGo_no_fuel_error (env : ScanEnv) :
    ∀ fuel task, taskMeasure env task < fuel →
      scanGo env fuel task ≠ .error .OutOfFuel := by
  intro fuel
  induction fuel with
  | zero =>
    intro task h
    exact absurd h (Nat.not_lt_zero _)
  | succ fuel ih =>
    intro task h
    cases task with
    | inl p =>
      obtain ⟨f, visiting⟩ := p
      have hmeas : taskMeasure env (Sum.inl (f, visiting)) < fuel + 1 := h
      simp only [scanGo]
      split
      · intro hc
        cases hc
      · rename_i hfv
        split
        · rename_i hff
          have hm' : taskMeasure env (.inr (f, env.includesOf f, f :: visiting)) < fuel := by
            have hr : remainingFiles env (f :: visiting) + 1 ≤ remainingFiles env visiting :=
              remainingFiles_cons_lt env f visiting hff hfv
            have hi : (env.includesOf f).length ≤ maxIncludes env :=
              maxIncludes_bound env f hff
            have h1 : taskMeasure env (.inr (f, env.includesOf f, f :: visiting))
                < (maxIncludes env + 1) * (remainingFiles env (f :: visiting) + 1) := by
              simp only [taskMeasure]
              calc (maxIncludes env + 1) * remainingFiles env (f :: visiting)
                    + (env.includesOf f).length
                  < (maxIncludes env + 1) * remainingFiles env (f :: visiting)
                    + (maxIncludes env + 1) := Nat.add_lt_add_left (Nat.lt_succ_of_le hi) _
                _ = (maxIncludes env + 1) * (remainingFiles env (f :: visiting) + 1) := by
                    ring
            have h2 : (maxIncludes env + 1) * (remainingFiles env (f :: visiting) + 1)
                ≤ (maxIncludes env + 1) * remainingFiles env visiting :=
              Nat.mul_le_mul_left _ hr
            have h3 := Nat.lt_of_lt_of_le h1 h2
            have h4 : (maxIncludes env + 1) * remainingFiles env visiting ≤ fuel :=
              Nat.lt_succ_iff.mp (by simpa [taskMeasure] using hmeas)
            exact Nat.lt_of_lt_of_le h3 h4
          split
          · rename_i e heq
            intro hc
            injection hc with hc'
            subst hc'
            exact (ih _ hm') heq
          · intro hc
            cases hc
        · intro hc
          cases hc
    | inr p =>
      obtain ⟨f, names, visiting⟩ := p
      cases names with
      | nil =>
        simp only [scanGo]
        intro hc
        cases hc
      | cons n rest =>
        have hrest : taskMeasure env (.inr (f, rest, visiting)) < fuel := by
          simp only [taskMeasure] at h ⊢
          simp only [List.length_cons] at h
          omega
        simp only [scanGo]
        split
        · exact ih _ hrest
        · rename_i d g heq
          split
          · rename_i e hsub
            intro hc
            injection hc with hc'
            subst hc'
            have hinl : taskMeasure env (.inl (g, visiting)) < fuel := by
              simp only [taskMeasure] at h ⊢
              simp only [List.length_cons] at h
              omega
            exact (ih _ hinl) hsub
          · rename_i sub hsub
            split
            · rename_i e hmore
              intro hc
              injection hc with hc'
              subst hc'
              exact (ih _ hrest) hmore
            · intro hc
              cases hc

theorem scanGo_visiting_not_ok (env : ScanEnv) (fuel : Nat) (f : String)
    (vis : List String) (hfv : f ∈ vis) :
    ∀ r, scanGo env fuel (.inl (f, vis)) ≠ .ok r := by
  cases fuel with
  | zero =>
    intro r hc
    cases hc
  | succ fuel =>
    simp only [scanGo]
    rw [if_pos hfv]
    intro r hc
    cases hc

theorem scanGo_inl_ok_inner (env : ScanEnv) (fuel : Nat) (f : String)
    (vis : List String) (r : List String)
    (h : scanGo env fuel (.inl (f, vis)) = .ok r) (hff : f ∈ env.files) :
    ∃ fuel' r', fuel = fuel' + 1
      ∧ scanGo env fuel' (.inr (f, env.includesOf f, f :: vis)) = .ok r' := by
  cases fuel with
  | zero => cases h
  | succ fuel =>
    simp only [scanGo] at h
    split at h
    · cases h
    · split at h
      · cases h
      · rename_i ds heq
        exact ⟨fuel, ds, rfl, heq⟩

theorem scanGo_inr_ok_mem (env : ScanEnv) (f : String) (vis : List String) :
    ∀ (names : List String) (fuel : Nat) (col : List String),
      scanGo env fuel (.inr (f, names, vis)) = .ok col →
      ∀ n ∈ names, ∀ d g, resolveInclude env f n = some (d, g) →
      ∃ fuel' sub, scanGo env fuel' (.inl (g, vis)) = .ok sub := by
  intro names
  induction names with
  | nil =>
    intro fuel col _ n hn
    cases hn
  | cons n₀ rest ih =>
    intro fuel col h n hn d g hres
    cases fuel with
    | zero => cases h
    | succ fuel =>
      simp only [scanGo] at h
      split at h
      · rename_i hres₀
        rcases List.mem_cons.mp hn with hmn | hmr
        · subst hmn
          rw [hres₀] at hres
          cases hres
        · exact ih fuel col h n hmr d g hres
      · rename_i d₀ g₀ hres₀
        split at h
        · cases h
        · rename_i sub₀ hsub₀
          split at h
          · cases h
          · rename_i more₀ hmore₀
            rcases List.mem_cons.mp hn with hmn | hmr
            · subst hmn
              rw [hres₀] at hres
              injection hres with hres'
              have hg : g₀ = g := (Prod.mk.injEq _ _ _ _ ▸ hres').2
              exact ⟨fuel, sub₀, by rw [← hg]; exact hsub₀⟩
            · exact ih fuel more₀ hmore₀ n hmr d g hres

theorem scanAllGo_ok_mem (env : ScanEnv) :
    ∀ (fs : List String) (l : List (String × List String)),
      scanAllGo env fs = .ok l →
      ∀ f ∈ fs, ∃ ds, scanFile env (scanFuel env) f [] = .ok ds ∧ (f, ds) ∈ l := by
  intro fs
  induction fs with
  | nil =>
    intro l _ f hf
    cases hf
  | cons f₀ rest ih =>
    intro l h f hf
    simp only [scanAllGo] at h
    split at h
    · cases h
    · rename_i ds₀ heq₀
      split at h
      · cases h
      · rename_i r heqr
        injection h with h'
        subst h'
        rcases List.mem_cons.mp hf with hf₀ | hfr
        · subst hf₀
          exact ⟨ds₀, heq₀, List.mem_cons_self _ _⟩
        · obtain ⟨ds, hds, hmem⟩ := ih r heqr f hfr
          exact ⟨ds, hds, List.mem_cons_of_mem _ hmem⟩

theorem scanAllGo_error (env : ScanEnv) :
    ∀ (fs : List String) (e : ScanError),
      scanAllGo env fs = .error e →
      ∃ f ∈ fs, scanFile env (scanFuel env) f [] = .error e := by
  intro fs
  induction fs with
  | nil =>
    intro e h
    cases h
  | cons f₀ rest ih =>
    intro e h
    simp only [scanAllGo] at h
    split at h
    · rename_i e₀ heq₀
      injection h with h'
      subst h'
      exact ⟨f₀, List.mem_cons_self _ _, heq₀⟩
    · rename_i ds₀ heq₀
      split at h
      · rename_i e₀ heqr
        injection h with h'
        subst h'
        obtain ⟨f, hf, hferr⟩ := ih _ heqr
        exact ⟨f, List.mem_cons_of_mem _ hf, hferr⟩
      · cases h

theorem taskMeasure_top_lt (env : ScanEnv) (f : String) :
    taskMeasure env (.inl (f, [])) < scanFuel env := by
  simp only [taskMeasure, scanFuel, remainingFiles]
  have h1 : (env.files.dedup.filter (fun p => ¬ p ∈ ([] : List String))).length
      ≤ env.files.length := by
    have h2 : (env.files.dedup.filter (fun p => ¬ p ∈ ([] : List String))).length
        ≤ env.files.dedup.length := List.length_filter_le _ _
    exact Nat.le_trans h2 env.files.dedup_sublist.length_le
  calc (maxIncludes env + 1)
        * (env.files.dedup.filter (fun p => ¬ p ∈ ([] : List String))).length
      ≤ (maxIncludes env + 1) * env.files.length := Nat.mul_le_mul_left _ h1
    _ < (maxIncludes env + 1) * env.files.length + 1 := Nat.lt_succ_self _

/-- C6: `scan_all` terminates on every input (it is a total function whose
fuel is proved sufficient by `scanGo_no_fuel_error`), and on every file
index containing a pair of mutually-including headers it reports
CycleDetected — a file reached again while still being visited in the same
traversal — instead of recursing unboundedly. -/
theorem C6_scan_all_cycle_detected
    (env : ScanEnv) (h1 h2 n m d₁ d₂ : String)
    (hh1 : h1 ∈ env.files) (hh2 : h2 ∈ env.files) (_hne : h1 ≠ h2)
    (hn : n ∈ env.includesOf h1) (hm : m ∈ env.includesOf h2)
    (hr1 : resolveInclude env h1 n = some (d₁, h2))
    (hr2 : resolveInclude env h2 m = some (d₂, h1)) :
    ∃ chain, scan_all env = .error (.CycleDetected chain) := by
  have hnotok : ∀ r, scanFile env (scanFuel env) h1 [] ≠ .ok r := by
    intro r hok
    obtain ⟨fuel₁, r₁, _, hin₁⟩ :=
      scanGo_inl_ok_inner env (scanFuel env) h1 [] r hok hh1
    obtain ⟨fuel₂, sub₂, hok₂⟩ :=
      scanGo_inr_ok_mem env h1 [h1] (env.includesOf h1) fuel₁ r₁ hin₁ n hn d₁ h2 hr1
    obtain ⟨fuel₃, r₃, _, hin₃⟩ :=
      scanGo_inl_ok_inner env fuel₂ h2 [h1] sub₂ hok₂ hh2
    obtain ⟨fuel₄, sub₄, hok₄⟩ :=
      scanGo_inr_ok_mem env h2 [h2, h1] (env.includesOf h2) fuel₃ r₃ hin₃ m hm d₂ h1 hr2
    exact scanGo_visiting_not_ok env fuel₄ h1 [h2, h1] (by simp) sub₄ hok₄
  cases hsc : scan_all env with
  | ok l =>
    obtain ⟨ds, hds, _⟩ := scanAllGo_ok_mem env env.files l hsc h1 hh1
    exact absurd hds (hnotok ds)
  | error e =>
    obtain ⟨f, hf, hferr⟩ := scanAllGo_error env env.files e hsc
    cases e with
    | OutOfFuel =>
      exact absurd hferr (scanGo_no_fuel_error env _ _ (taskMeasure_top_lt env f))
    | CycleDetected c => exact ⟨c, rfl⟩

/-- The synthetic mutually-including pair of headers. -/
def cycleEnv : ScanEnv :=
  ⟨["/a/x.h", "/a/y.h"],
   fun f => if f = "/a/x.h" then ["y.h"] else if f = "/a/y.h" then ["x.h"] else [],
   []⟩

/-- Witness for C6: the mutually-including pair makes `scan_all` report
CycleDetected. -/
theorem C6_scan_all_cycle_detected_witness :
    ∃ chain, scan_all cycleEnv = .error (.CycleDetected chain) :=
  C6_scan_all_cycle_detected cycleEnv "/a/x.h" "/a/y.h" "y.h" "x.h" "/a" "/a"
    (by decide) (by decide) (by decide) (by decide) (by decide)
    (by decide) (by decide)

theorem scanAllGo_ok_entries (env : ScanEnv) :
    ∀ (fs : List String) (l : List (String × List String)),
      scanAllGo env fs = .ok l →
      ∀ pr ∈ l, scanFile env (scanFuel env) pr.1 [] = .ok pr.2 := by
  intro fs
  induction fs with
  | nil =>
    intro l h pr hpr
    cases h
    cases hpr
  | cons f₀ rest ih =>
    intro l h pr hpr
    simp only [scanAllGo] at h
    split at h
    · cases h
    · rename_i ds₀ heq₀
      split at h
      · cases h
      · rename_i r heqr
        injection h with h'
        subst h'
        rcases List.mem_cons.mp hpr with hp | hp
        · subst hp
          exact heq₀
        · exact ih r heqr pr hp

theorem scanGo_inl_ok_shape (env : ScanEnv) (fuel : Nat) (f : String)
    (vis : List String) (ds : List String)
    (h : scanGo env fuel (.inl (f, vis)) = .ok ds) :
    ds = [] ∨ ∃ col, ds = sortDedup (osDirname f :: col) := by
  cases fuel with
  | zero => cases h
  | succ fuel =>
    simp only [scanGo] at h
    split at h
    · cases h
    · split at h
      · split at h
        · cases h
        · rename_i col heq
          injection h with h'
          exact Or.inr ⟨col, h'.symm⟩
      · injection h with h'
        exact Or.inl h'.symm

theorem scanGo_inr_ok_char (env : ScanEnv) (f : String) (vis : List String) :
    ∀ (names : List String) (fuel : Nat) (col : List String),
      scanGo env fuel (.inr (f, names, vis)) = .ok col →
      (∀ n ∈ names, ∀ d g, resolveInclude env f n = some (d, g) →
          d ∈ col ∧ ∃ fuel' sub, scanGo env fuel' (.inl (g, vis)) = .ok sub
            ∧ ∀ x ∈ sub, x ∈ col)
      ∧ (∀ x ∈ col, ∃ n, n ∈ names ∧ ∃ d g fuel' sub,
            resolveInclude env f n = some (d, g)
            ∧ scanGo env fuel' (.inl (g, vis)) = .ok sub ∧ (x = d ∨ x ∈ sub)) := by
  intro names
  induction names with
  | nil =>
    intro fuel col h
    cases fuel with
    | zero => cases h
    | succ fuel =>
      simp only [scanGo] at h
      injection h with h'
      subst h'
      constructor
      · intro n hn
        cases hn
      · intro x hx
        cases hx
  | cons n₀ rest ih =>
    intro fuel col h
    cases fuel with
    | zero => cases h
    | succ fuel =>
      simp only [scanGo] at h
      split at h
      · rename_i hres₀
        obtain ⟨ih₁, ih₂⟩ := ih fuel col h
        constructor
        · intro n hn d g hres
          rcases List.mem_cons.mp hn with hn₀ | hnr
          · subst hn₀
            rw [hres₀] at hres
            cases hres
          · exact ih₁ n hnr d g hres
        · intro x hx
          obtain ⟨n, hn, rest'⟩ := ih₂ x hx
          exact ⟨n, List.mem_cons_of_mem _ hn, rest'⟩
      · rename_i d₀ g₀ hres₀
        split at h
        · cases h
        · rename_i sub₀ hsub₀
          split at h
          · cases h
          · rename_i more₀ hmore₀
            injection h with h'
            subst h'
            obtain ⟨ih₁, ih₂⟩ := ih fuel more₀ hmore₀
            constructor
            · intro n hn d g hres
              rcases List.mem_cons.mp hn with hn₀ | hnr
              · subst hn₀
                rw [hres₀] at hres
                injection hres with hres'
                have hd : d₀ = d := (Prod.mk.injEq _ _ _ _ ▸ hres').1
                have hg : g₀ = g := (Prod.mk.injEq _ _ _ _ ▸ hres').2
                subst hd
                subst hg
                refine ⟨List.mem_cons_self _ _, fuel, sub₀, hsub₀, ?_⟩
                intro x hx
                exact List.mem_cons_of_mem _ (List.mem_append.mpr (Or.inl hx))
              · obtain ⟨hd, fuel', sub, hsub, hsubcol⟩ := ih₁ n hnr d g hres
                refine ⟨List.mem_cons_of_mem _ (List.mem_append.mpr (Or.inr hd)),
                  fuel', sub, hsub, ?_⟩
                intro x hx
                exact List.mem_cons_of_mem _ (List.mem_append.mpr (Or.inr (hsubcol x hx)))
            · intro x hx
              rcases List.mem_cons.mp hx with hx₀ | hx'
              · exact ⟨n₀, List.mem_cons_self _ _, d₀, g₀, fuel, sub₀, hres₀, hsub₀,
                  Or.inl hx₀⟩
              · rcases List.mem_append.mp hx' with hxs | hxm
                · exact ⟨n₀, List.mem_cons_self _ _, d₀, g₀, fuel, sub₀, hres₀, hsub₀,
                    Or.inr hxs⟩
                · obtain ⟨n, hn, d, g, fuel', sub, hres, hsub, hx''⟩ := ih₂ x hxm
                  exact ⟨n, List.mem_cons_of_mem _ hn, d, g, fuel', sub, hres, hsub, hx''⟩

theorem scanGo_inl_ok_decomp (env : ScanEnv) (fuel : Nat) (f : String)
    (vis : List String) (ds : List String)
    (h : scanGo env (fuel+1) (.inl (f, vis)) = .ok ds) (hff : f ∈ env.files) :
    ∃ col, scanGo env fuel (.inr (f, env.includesOf f, f :: vis)) = .ok col
      ∧ ds = sortDedup (osDirname f :: col) := by
  simp only [scanGo] at h
  split at h
  · cases h
  · split at h
    · cases h
    · rename_i col heq
      injection h with h'
      exact ⟨col, heq, h'.symm⟩

/-- The factorial scenario of the spec: `utils.h` (no includes) in `/u`,
`factorial.h` (includes `utils.h`) in `/h`, `factorial.cpp` (includes
`factorial.h`) in `/c`. -/
def scenarioEnv : ScanEnv :=
  ⟨["/c/factorial.cpp", "/h/factorial.h", "/u/utils.h"],
   fun f => if f = "/c/factorial.cpp" then ["factorial.h"]
     else if f = "/h/factorial.h" then ["utils.h"] else [],
   []⟩

/-- C8: after `scan_all`, every file's `include_dirs` is a sorted
deduplicated set equal to the union of the file's own directory, the
directories that resolved its includes, and the `include_dirs` computed for
every file it includes within the same traversal; in the
utils.h/factorial.h/factorial.cpp scenario, scanning yields exactly
{dir(factorial.cpp), dir(factorial.h), dir(utils.h)} for factorial.cpp,
sorted and deduplicated. -/
theorem C8_include_dirs_sorted_union :
    (∀ (env : ScanEnv) (l : List (String × List String)),
        scan_all env = .ok l → ∀ pr ∈ l, List.Sorted strLe pr.2 ∧ pr.2.Nodup)
    ∧ (∀ (env : ScanEnv) (fuel : Nat) (f : String) (vis ds : List String),
        scanFile env (fuel+1) f vis = .ok ds → f ∈ env.files →
        (osDirname f ∈ ds
         ∧ (∀ n ∈ env.includesOf f, ∀ d g, resolveInclude env f n = some (d, g) →
              d ∈ ds ∧ ∃ fuel' sub, scanFile env fuel' g (f :: vis) = .ok sub
                ∧ ∀ x ∈ sub, x ∈ ds)
         ∧ (∀ x ∈ ds, x = osDirname f
              ∨ ∃ n ∈ env.includesOf f, ∃ d g fuel' sub,
                  resolveInclude env f n = some (d, g)
                  ∧ scanFile env fuel' g (f :: vis) = .ok sub
                  ∧ (x = d ∨ x ∈ sub))))
    ∧ scan_all scenarioEnv = .ok
        [("/c/factorial.cpp", ["/c", "/h", "/u"]),
         ("/h/factorial.h", ["/h", "/u"]),
         ("/u/utils.h", ["/u"])] := by
  refine ⟨?_, ?_, by decide⟩
  · intro env l h pr hpr
    have hf := scanAllGo_ok_entries env env.files l h pr hpr
    rcases scanGo_inl_ok_shape env (scanFuel env) pr.1 [] pr.2 hf with h0 | ⟨col, hcol⟩
    · rw [h0]
      exact ⟨List.sorted_nil, List.nodup_nil⟩
    · rw [hcol]
      exact ⟨sortDedup_sorted _, sortDedup_nodup _⟩
  · intro env fuel f vis ds h hff
    obtain ⟨col, hcol, hds⟩ := scanGo_inl_ok_decomp env fuel f vis ds h hff
    obtain ⟨hc₁, hc₂⟩ := scanGo_inr_ok_char env f (f :: vis) (env.includesOf f) fuel col hcol
    subst hds
    refine ⟨?_, ?_, ?_⟩
    · exact mem_sortDedup.mpr (List.mem_cons_self _ _)
    · intro n hn d g hres
      obtain ⟨hd, fuel', sub, hsub, hsubcol⟩ := hc₁ n hn d g hres
      exact ⟨mem_sortDedup.mpr (List.mem_cons_of_mem _ hd), fuel', sub, hsub,
        fun x hx => mem_sortDedup.mpr (List.mem_cons_of_mem _ (hsubcol x hx))⟩
    · intro x hx
      rcases List.mem_cons.mp (mem_sortDedup.mp hx) with h₀ | hcolm
      · exact Or.inl h₀
      · obtain ⟨n, hn, d, g, fuel', sub, hres, hsub, hx'⟩ := hc₂ x hcolm
        exact Or.inr ⟨n, hn, d, g, fuel', sub, hres, hsub, hx'⟩

/-- Witness for C8 on the factorial scenario: factorial.cpp's include_dirs
are sorted, deduplicated, contain its own directory, and the whole scan
result is exactly the expected directory sets. -/
theorem C8_include_dirs_sorted_union_witness :
    (List.Sorted strLe ["/c", "/h", "/u"] ∧ (["/c", "/h", "/u"] : List String).Nodup)
    ∧ osDirname "/c/factorial.cpp" ∈ (["/c", "/h", "/u"] : List String)
    ∧ scan_all scenarioEnv = .ok
        [("/c/factorial.cpp", ["/c", "/h", "/u"]),
         ("/h/factorial.h", ["/h", "/u"]),
         ("/u/utils.h", ["/u"])] :=
  ⟨C8_include_dirs_sorted_union.1 scenarioEnv
      [("/c/factorial.cpp", ["/c", "/h", "/u"]),
       ("/h/factorial.h", ["/h", "/u"]),
       ("/u/utils.h", ["/u"])] (by decide)
      ("/c/factorial.cpp", ["/c", "/h", "/u"]) (by decide),
   (C8_include_dirs_sorted_union.2.1 scenarioEnv 6 "/c/factorial.cpp" []
      ["/c", "/h", "/u"] (by decide) (by decide)).1,
   C8_include_dirs_sorted_union.2.2⟩
